import Mathlib

/-!
Verification of the git checkout/sync engine of the hosting-worker repository.

JavaScript strings are modelled as lists of characters (`Str`); the JavaScript
string operations used by the code (`toUpperCase`, `startsWith`, `endsWith`,
`slice`, `trim`, `indexOf`, `lastIndexOf`, first-occurrence `replace`) are
modelled by executable functions on `Str`.  External git processes are
modelled by oracle structures whose fields give the outcome of each
invocation; a git invocation that may exit non-zero without
`allowAllExitCodes` is modelled as an `Except`, because the process runner
raises in that case.
-/

namespace HostingWorker

/-- A JavaScript string: a list of characters. -/
abbrev Str := List Char

/-- Embed a Lean string literal as a `Str`. -/
def str (s : String) : Str := s.data

/-- JavaScript `s.toUpperCase()` (ASCII case mapping, as used by the code). -/
def jsToUpper (s : Str) : Str := s.map Char.toUpper

/-- JavaScript `s.startsWith(pre)`. -/
def jsStartsWith (s pre : Str) : Bool := pre.isPrefixOf s

/-- JavaScript `s.endsWith(suf)`. -/
def jsEndsWith (s suf : Str) : Bool := suf.isSuffixOf s

/-- JavaScript `s.slice(n)` for a non-negative `n`. -/
def jsSlice (n : Nat) (s : Str) : Str := s.drop n

/-- JavaScript whitespace characters relevant to `trim` in this code base. -/
def isJsWhitespace (c : Char) : Bool :=
  c = ' ' ∨ c = '\t' ∨ c = '\n' ∨ c = '\r'

/-- JavaScript `s.trim()`. -/
def jsTrim (s : Str) : Str :=
  ((s.dropWhile isJsWhitespace).reverse.dropWhile isJsWhitespace).reverse

/-- POSIX `path.join(a, b)` as used on the worker host (no `..` segments occur). -/
def pathJoin (a b : Str) : Str := a ++ '/' :: b

/-- All positions `i` (0 ≤ i ≤ |s|) at which `pat` occurs in `s`, ascending. -/
def occPositions (s pat : Str) : List Nat :=
  (List.range (s.length + 1)).filter (fun i => pat.isPrefixOf (s.drop i))

/-- JavaScript `s.indexOf(pat)`: the first occurrence position, if any. -/
def indexOfSub (s pat : Str) : Option Nat := (occPositions s pat).head?

/-- JavaScript `s.lastIndexOf(pat)`: the last occurrence position, if any. -/
def lastIndexOfSub (s pat : Str) : Option Nat := (occPositions s pat).getLast?

/-- JavaScript `s.replace(pat, repl)` with a plain-string pattern: replaces
the first occurrence only (the replacement strings used here contain no
`$`-patterns). -/
def jsReplaceFirstSub (s pat repl : Str) : Str :=
  match indexOfSub s pat with
  | none => s
  | some i => s.take i ++ repl ++ s.drop (i + pat.length)

/-- `pat` occurs in `s` (used for JavaScript `s.includes(pat)`). -/
def containsSub (s pat : Str) : Bool := (indexOfSub s pat).isSome

section StrLemmas

theorem jsToUpper_append (a b : Str) : jsToUpper (a ++ b) = jsToUpper a ++ jsToUpper b :=
  List.map_append Char.toUpper a b

theorem jsStartsWith_iff (s pre : Str) : jsStartsWith s pre = true ↔ pre <+: s := by
  simp [jsStartsWith, List.isPrefixOf_iff_prefix]

theorem jsStartsWith_eq_false (s pre : Str) (h : ¬ pre <+: s) : jsStartsWith s pre = false := by
  rw [← Bool.not_eq_true, jsStartsWith_iff]; exact h

theorem jsEndsWith_iff (s suf : Str) : jsEndsWith s suf = true ↔ suf <:+ s := by
  simp [jsEndsWith, List.isSuffixOf_iff_suffix]

/-- Two lists that are prefixes of a common list are comparable; so a prefix
of `s` that is incomparable with `p` rules out `p <+: s`. -/
theorem not_prefix_of_incomparable {p q s : Str} (hq : q <+: s)
    (h1 : ¬ p <+: q) (h2 : ¬ q <+: p) : ¬ p <+: s := fun hp =>
  (List.prefix_or_prefix_of_prefix hp hq).elim h1 h2

theorem jsStartsWith_append_self (p b : Str) : jsStartsWith (p ++ b) p = true := by
  rw [jsStartsWith_iff]; exact List.prefix_append p b

end StrLemmas

/-!
## Git command oracle

`GitCommandManager` methods consulted by the pure reference logic.  The
`branchExists`, `tagExists` and `shaExists` wrappers run git commands that
exit zero whether or not a match is found, so they are modelled as boolean
oracles; `revParse` runs `git rev-parse <ref>` without `allowAllExitCodes`,
so a non-zero exit raises, which is modelled by `Except`.
-/

structure GitEnv where
  branchExists : Bool → Str → Bool
  tagExists : Str → Bool
  shaExists : Str → Bool
  revParse : Str → Except Unit Str

/-- Error outcomes of `getCheckoutInfo`. -/
inductive CheckoutError where
  | emptyArgs : CheckoutError
  | notFound : CheckoutError
deriving DecidableEq, Repr

/-- `ICheckoutInfo`: resolved checkout ref plus optional start point. -/
structure CheckoutInfo where
  ref : Str
  startPoint : Option Str
deriving DecidableEq, Repr

/-- `getCheckoutInfo(git, ref, commit)` from `git-directory-helper.ts`
(`resolveCheckoutTarget` in the specification). -/
def getCheckoutInfo (git : GitEnv) (reference commit : Str) : Except CheckoutError CheckoutInfo :=
  if reference = [] ∧ commit = [] then
    .error .emptyArgs
  else
    let upperReference := jsToUpper reference
    -- SHA only
    if reference = [] then
      .ok ⟨commit, none⟩
    -- refs/heads/
    else if jsStartsWith upperReference (str "REFS/HEADS/") then
      let branch := jsSlice (str "refs/heads/").length reference
      .ok ⟨branch, some (str "refs/remotes/origin/" ++ branch)⟩
    -- refs/pull/
    else if jsStartsWith upperReference (str "REFS/PULL/") then
      let branch := jsSlice (str "refs/pull/").length reference
      .ok ⟨str "refs/remotes/pull/" ++ branch, none⟩
    -- refs/tags/ and everything else qualified
    else if jsStartsWith upperReference (str "REFS/") then
      .ok ⟨reference, none⟩
    -- Unqualified ref: branch first, then tag
    else if git.branchExists true (str "origin/" ++ reference) then
      .ok ⟨reference, some (str "refs/remotes/origin/" ++ reference)⟩
    else if git.tagExists reference then
      .ok ⟨str "refs/tags/" ++ reference, none⟩
    else
      .error .notFound

section GetCheckoutInfoLemmas

theorem getCheckoutInfo_heads (git : GitEnv) (b commit : Str) :
    getCheckoutInfo git (str "refs/heads/" ++ b) commit =
      .ok ⟨b, some (str "refs/remotes/origin/" ++ b)⟩ := by
  have hne : str "refs/heads/" ++ b ≠ [] := List.append_ne_nil_of_left_ne_nil (by decide) b
  have hup : jsToUpper (str "refs/heads/" ++ b) = str "REFS/HEADS/" ++ jsToUpper b := by
    rw [jsToUpper_append]; rfl
  simp only [getCheckoutInfo, hup, hne, false_and, if_false, if_neg hne,
    jsStartsWith_append_self, if_true, jsSlice]
  rw [List.drop_left]

theorem getCheckoutInfo_pull (git : GitEnv) (b commit : Str) :
    getCheckoutInfo git (str "refs/pull/" ++ b) commit =
      .ok ⟨str "refs/remotes/pull/" ++ b, none⟩ := by
  have hne : str "refs/pull/" ++ b ≠ [] := List.append_ne_nil_of_left_ne_nil (by decide) b
  have hup : jsToUpper (str "refs/pull/" ++ b) = str "REFS/PULL/" ++ jsToUpper b := by
    rw [jsToUpper_append]; rfl
  have hheads : jsStartsWith (str "REFS/PULL/" ++ jsToUpper b) (str "REFS/HEADS/") = false :=
    jsStartsWith_eq_false _ _
      (not_prefix_of_incomparable (List.prefix_append _ _) (by decide) (by decide))
  simp only [getCheckoutInfo, hup, hne, false_and, if_false, if_neg hne, hheads,
    Bool.false_eq_true, jsStartsWith_append_self, if_true, jsSlice]
  rw [List.drop_left]

theorem getCheckoutInfo_qualified (git : GitEnv) (reference commit : Str)
    (h : jsStartsWith (jsToUpper reference) (str "REFS/") = true)
    (hh : jsStartsWith (jsToUpper reference) (str "REFS/HEADS/") = false)
    (hp : jsStartsWith (jsToUpper reference) (str "REFS/PULL/") = false) :
    getCheckoutInfo git reference commit = .ok ⟨reference, none⟩ := by
  have hne : reference ≠ [] := by
    intro he
    rw [he] at h
    simp [jsToUpper, jsStartsWith, str, List.isPrefixOf] at h
  simp only [getCheckoutInfo, hne, false_and, if_false, if_neg hne, h, hh, hp,
    Bool.false_eq_true, if_true]

theorem getCheckoutInfo_unqualified (git : GitEnv) (reference commit : Str)
    (h : jsStartsWith (jsToUpper reference) (str "REFS/") = false) (hne : reference ≠ []) :
    getCheckoutInfo git reference commit =
      (if git.branchExists true (str "origin/" ++ reference) then
        .ok ⟨reference, some (str "refs/remotes/origin/" ++ reference)⟩
      else if git.tagExists reference then
        .ok ⟨str "refs/tags/" ++ reference, none⟩
      else
        .error .notFound) := by
  have hsub : ∀ p : Str, (str "REFS/") <+: p →
      jsStartsWith (jsToUpper reference) p = false := by
    intro p hp
    apply jsStartsWith_eq_false
    intro hcon
    rw [← Bool.not_eq_true, jsStartsWith_iff] at h
    exact h (hp.trans hcon)
  have hh := hsub (str "REFS/HEADS/") (by decide)
  have hp := hsub (str "REFS/PULL/") (by decide)
  simp only [getCheckoutInfo, hne, false_and, if_false, if_neg hne, h, hh, hp,
    Bool.false_eq_true, if_true]

end GetCheckoutInfoLemmas

/-- Claim C1: `getCheckoutInfo` performs an exhaustive case analysis: both
arguments empty throws; commit only yields the commit with no start point;
`refs/heads/<b>` yields branch `<b>` with start point
`refs/remotes/origin/<b>`; `refs/pull/<n>/...` yields
`refs/remotes/pull/<n>/...` with no start point; any other ref beginning with
`refs/` is returned verbatim; an unqualified ref yields the branch form
whenever the remote-tracking branch exists (branch wins even when a tag of
the same name exists), otherwise the tag form whenever the tag exists, and
otherwise a not-found error. -/
theorem C1_getCheckoutInfo_cases (git : GitEnv) (reference commit : Str) :
    (reference = [] → commit = [] →
      getCheckoutInfo git reference commit = .error .emptyArgs)
    ∧ (reference = [] → commit ≠ [] →
      getCheckoutInfo git reference commit = .ok ⟨commit, none⟩)
    ∧ (∀ b, reference = str "refs/heads/" ++ b →
      getCheckoutInfo git reference commit =
        .ok ⟨b, some (str "refs/remotes/origin/" ++ b)⟩)
    ∧ (∀ b, reference = str "refs/pull/" ++ b →
      getCheckoutInfo git reference commit = .ok ⟨str "refs/remotes/pull/" ++ b, none⟩)
    ∧ (jsStartsWith (jsToUpper reference) (str "REFS/") = true →
      jsStartsWith (jsToUpper reference) (str "REFS/HEADS/") = false →
      jsStartsWith (jsToUpper reference) (str "REFS/PULL/") = false →
      getCheckoutInfo git reference commit = .ok ⟨reference, none⟩)
    ∧ (jsStartsWith (jsToUpper reference) (str "REFS/") = false → reference ≠ [] →
      (git.branchExists true (str "origin/" ++ reference) = true →
        getCheckoutInfo git reference commit =
          .ok ⟨reference, some (str "refs/remotes/origin/" ++ reference)⟩)
      ∧ (git.branchExists true (str "origin/" ++ reference) = false →
        git.tagExists reference = true →
        getCheckoutInfo git reference commit = .ok ⟨str "refs/tags/" ++ reference, none⟩)
      ∧ (git.branchExists true (str "origin/" ++ reference) = false →
        git.tagExists reference = false →
        getCheckoutInfo git reference commit = .error .notFound)) := by
  refine ⟨?_, ?_, ?_, ?_, ?_, ?_⟩
  · intro h1 h2; simp [getCheckoutInfo, h1, h2]
  · intro h1 h2; simp [getCheckoutInfo, h1, h2]
  · intro b hb; rw [hb]; exact getCheckoutInfo_heads git b commit
  · intro b hb; rw [hb]; exact getCheckoutInfo_pull git b commit
  · exact getCheckoutInfo_qualified git reference commit
  · intro h hne
    rw [getCheckoutInfo_unqualified git reference commit h hne]
    refine ⟨fun hb => by simp [hb], fun hb ht => by simp [hb, ht], fun hb ht => by simp [hb, ht]⟩

/-- Oracle used to instantiate hypothesis-bearing theorems: the repository
has remote-tracking branch `origin/main` and tags `main` and `v1`, so the
unqualified ref `main` collides between branch and tag. -/
def sampleGitEnv : GitEnv where
  branchExists := fun _ p => p == str "origin/main"
  tagExists := fun t => t == str "main" || t == str "v1"
  shaExists := fun _ => true
  revParse := fun r => if r == str "refs/remotes/origin/main" then .ok (str "1234") else .error ()

/-- Witness for C1 at concrete inputs: the colliding unqualified ref `main`
resolves as a branch (branch wins over the equally named tag), `v1` resolves
as a tag, and an unknown unqualified ref is a not-found error. -/
theorem C1_getCheckoutInfo_cases_witness :
    getCheckoutInfo sampleGitEnv (str "main") (str "c0ffee") =
      .ok ⟨str "main", some (str "refs/remotes/origin/main")⟩
    ∧ getCheckoutInfo sampleGitEnv (str "v1") [] = .ok ⟨str "refs/tags/v1", none⟩
    ∧ getCheckoutInfo sampleGitEnv (str "dev") [] = .error .notFound := by
  refine ⟨?_, ?_, ?_⟩
  · exact ((C1_getCheckoutInfo_cases sampleGitEnv (str "main") (str "c0ffee")).2.2.2.2.2
      (by decide) (by decide)).1 (by decide)
  · exact (((C1_getCheckoutInfo_cases sampleGitEnv (str "v1") []).2.2.2.2.2
      (by decide) (by decide)).2.1 (by decide) (by decide))
  · exact (((C1_getCheckoutInfo_cases sampleGitEnv (str "dev") []).2.2.2.2.2
      (by decide) (by decide)).2.2 (by decide) (by decide))

/-!
## RetryHelper

`RetryHelper.execute` from `retry-helper.ts`.  The fallible async operation
is modelled as a function from the invocation index (0-based) to the outcome
of that invocation.  `executeGo` mirrors the `while (attempt < maxAttempts)`
loop: a successful invocation returns immediately; a failed one is caught and
logged, one sleep is taken, and the attempt counter advances; the last
attempt runs outside the loop with no surrounding try/catch.  Alongside the
result we count how many times the operation was invoked and how many sleeps
were taken.
-/

structure RetryTrace (E T : Type) where
  result : Except E T
  invocations : Nat
  delays : Nat

def executeGo {E T : Type} (maxAttempts : Nat) (action : Nat → Except E T)
    (attempt calls delays : Nat) : RetryTrace E T :=
  if attempt < maxAttempts then
    match action calls with
    | .ok v => ⟨.ok v, calls + 1, delays⟩
    | .error _ => executeGo maxAttempts action (attempt + 1) (calls + 1) (delays + 1)
  else
    ⟨action calls, calls + 1, delays⟩
termination_by maxAttempts - attempt

/-- `RetryHelper.execute` with the given `maxAttempts` (`attempt` starts at 1). -/
def retryExecute {E T : Type} (maxAttempts : Nat) (action : Nat → Except E T) : RetryTrace E T :=
  executeGo maxAttempts action 1 0 0

/-- Default policy `maxAttempts = 3` (min/max backoff 10/20 seconds). -/
def defaultMaxAttempts : Nat := 3

section RetryLemmas

theorem executeGo_step_lt {E T : Type} (maxAttempts : Nat) (action : Nat → Except E T)
    (attempt calls delays : Nat) (h : attempt < maxAttempts) :
    executeGo maxAttempts action attempt calls delays =
      (match action calls with
      | .ok v => ⟨.ok v, calls + 1, delays⟩
      | .error _ => executeGo maxAttempts action (attempt + 1) (calls + 1) (delays + 1)) := by
  rw [executeGo, if_pos h]

theorem executeGo_step_ge {E T : Type} (maxAttempts : Nat) (action : Nat → Except E T)
    (attempt calls delays : Nat) (h : ¬ attempt < maxAttempts) :
    executeGo maxAttempts action attempt calls delays = ⟨action calls, calls + 1, delays⟩ := by
  rw [executeGo, if_neg h]

/-- The default-policy retry loop fully unfolded as a case split on the first
three invocation outcomes. -/
theorem retryExecute_three {E T : Type} (action : Nat → Except E T) :
    retryExecute 3 action =
      (match action 0 with
      | .ok v => ⟨.ok v, 1, 0⟩
      | .error _ =>
        match action 1 with
        | .ok v => ⟨.ok v, 2, 1⟩
        | .error _ => ⟨action 2, 3, 2⟩) := by
  rw [retryExecute, executeGo_step_lt _ _ _ _ _ (by omega)]
  cases action 0 with
  | ok v => rfl
  | error e =>
    rw [executeGo_step_lt _ _ _ _ _ (by omega)]
    cases action 1 with
    | ok v => rfl
    | error e => rw [executeGo_step_ge _ _ _ _ _ (by omega)]

end RetryLemmas

/-- Claim C3: under the default policy (`maxAttempts = 3`) the operation is
invoked at most 3 times; a successful invocation returns its value
immediately with no further invocations and no delay beyond those already
taken; an error in one of the first two invocations is swallowed and exactly
one delay precedes the next invocation (success on the 2nd call observes
exactly one delay); and an error in the final invocation propagates
unmodified, since the last attempt runs outside the try/catch. -/
theorem C3_retryExecute_default_policy {E T : Type} (action : Nat → Except E T) :
    (retryExecute defaultMaxAttempts action).invocations ≤ 3
    ∧ (∀ v, action 0 = .ok v →
      retryExecute defaultMaxAttempts action = ⟨.ok v, 1, 0⟩)
    ∧ (∀ e v, action 0 = .error e → action 1 = .ok v →
      retryExecute defaultMaxAttempts action = ⟨.ok v, 2, 1⟩)
    ∧ (∀ e₀ e₁ e₂, action 0 = .error e₀ → action 1 = .error e₁ → action 2 = .error e₂ →
      retryExecute defaultMaxAttempts action = ⟨.error e₂, 3, 2⟩) := by
  have h3 := retryExecute_three action
  rw [show defaultMaxAttempts = 3 from rfl]
  refine ⟨?_, ?_, ?_, ?_⟩
  · rw [h3]
    cases action 0 with
    | ok v => simp
    | error e => cases action 1 <;> simp
  · intro v hv; rw [h3, hv]
  · intro e v he hv; rw [h3, he, hv]
  · intro e₀ e₁ e₂ h₀ h₁ h₂; rw [h3, h₀, h₁, h₂]

/-- A concrete fallible operation: fails on its first invocation, succeeds
with 42 on the second. -/
def sampleAction : Nat → Except Unit Nat :=
  fun n => if n = 0 then .error () else .ok 42

/-- Witness for C3: the sample operation that succeeds on its 2nd call
returns 42 after exactly 2 invocations and exactly 1 retry delay. -/
theorem C3_retryExecute_default_policy_witness :
    retryExecute defaultMaxAttempts sampleAction = ⟨.ok 42, 2, 1⟩ :=
  (C3_retryExecute_default_policy sampleAction).2.2.1 () 42 rfl rfl

/-!
## testReference and getReferenceSpecForAllHistory

`testReference` from `git-directory-helper.ts` checks whether the initial
fetch created the ref at the expected commit.  Note that the code awaits
`git.revParse` unconditionally (there is no short-circuit), so when the ref
does not exist the `git rev-parse` invocation exits non-zero and its error
propagates; this is modelled by `Except.map` over the oracle result.
-/

def testReference (git : GitEnv) (reference commit : Str) : Except Unit Bool :=
  if reference = [] ∧ commit = [] then
    .error ()
  -- No SHA? Nothing to test
  else if commit = [] then
    .ok true
  -- SHA only?
  else if reference = [] then
    .ok (git.shaExists commit)
  else
    let upperReference := jsToUpper reference
    -- refs/heads/
    if jsStartsWith upperReference (str "REFS/HEADS/") then
      let branch := jsSlice (str "refs/heads/").length reference
      let branchExists := git.branchExists true (str "origin/" ++ branch)
      (git.revParse (str "refs/remotes/origin/" ++ branch)).map
        (fun commitSHA => branchExists && commit == commitSHA)
    -- refs/pull/
    else if jsStartsWith upperReference (str "REFS/PULL/") then
      .ok true
    -- refs/tags/
    else if jsStartsWith upperReference (str "REFS/TAGS/") then
      let tagName := jsSlice (str "refs/tags/").length reference
      let tagExists := git.tagExists tagName
      (git.revParse reference).map (fun commitSHA => tagExists && commit == commitSHA)
    -- Unexpected
    else
      .ok true

/-- Counterexample to claim C6 as stated: when the remote-tracking branch
does not exist, the claim says `testReference` returns false rather than
raising, but the unconditional `git rev-parse refs/remotes/origin/dev`
invocation fails and its error propagates, so the call raises. -/
theorem C6_testReference_counterexample :
    testReference sampleGitEnv (str "refs/heads/dev") (str "abc") = .error ()
    ∧ testReference sampleGitEnv (str "refs/heads/dev") (str "abc") ≠ .ok false := by
  have h1 : testReference sampleGitEnv (str "refs/heads/dev") (str "abc") = .error () := rfl
  exact ⟨h1, by rw [h1]; exact fun h => Except.noConfusion h⟩

/-- Claim C6 (amended): for a `refs/heads/<b>` ref with an expected commit,
`testReference` maps the outcome of `rev-parse refs/remotes/origin/<b>` —
when that invocation succeeds the result is true iff the remote-tracking
branch exists and the resolved SHA equals the expected commit (false when
either conjunct fails), and when it fails the error propagates instead of
returning false; symmetrically for `refs/tags/<t>`; PR refs and unrecognized
formats (and a missing expected commit) always yield true, and a commit with
no ref yields the sha-existence check. -/
theorem C6_testReference_amended (git : GitEnv) (reference commit : Str) :
    (reference = [] → commit = [] → testReference git reference commit = .error ())
    ∧ (commit = [] → reference ≠ [] → testReference git reference commit = .ok true)
    ∧ (reference = [] → commit ≠ [] →
      testReference git reference commit = .ok (git.shaExists commit))
    ∧ (∀ b, reference = str "refs/heads/" ++ b → commit ≠ [] →
      testReference git reference commit =
        (git.revParse (str "refs/remotes/origin/" ++ b)).map
          (fun sha => git.branchExists true (str "origin/" ++ b) && commit == sha))
    ∧ (∀ b, reference = str "refs/pull/" ++ b → commit ≠ [] →
      testReference git reference commit = .ok true)
    ∧ (∀ t, reference = str "refs/tags/" ++ t → commit ≠ [] →
      testReference git reference commit =
        (git.revParse reference).map (fun sha => git.tagExists t && commit == sha))
    ∧ (commit ≠ [] → reference ≠ [] →
      jsStartsWith (jsToUpper reference) (str "REFS/HEADS/") = false →
      jsStartsWith (jsToUpper reference) (str "REFS/PULL/") = false →
      jsStartsWith (jsToUpper reference) (str "REFS/TAGS/") = false →
      testReference git reference commit = .ok true) := by
  refine ⟨?_, ?_, ?_, ?_, ?_, ?_, ?_⟩
  · intro h1 h2; simp [testReference, h1, h2]
  · intro h1 h2; simp [testReference, h1, h2]
  · intro h1 h2; simp [testReference, h1, h2]
  · intro b hb hc
    subst hb
    have hne : str "refs/heads/" ++ b ≠ [] := List.append_ne_nil_of_left_ne_nil (by decide) b
    have hup : jsToUpper (str "refs/heads/" ++ b) = str "REFS/HEADS/" ++ jsToUpper b := by
      rw [jsToUpper_append]; rfl
    simp only [testReference, hne, hc, false_and, and_false, if_false, if_neg hne, if_neg hc,
      hup, jsStartsWith_append_self, if_true, jsSlice]
    rw [List.drop_left]
  · intro b hb hc
    subst hb
    have hne : str "refs/pull/" ++ b ≠ [] := List.append_ne_nil_of_left_ne_nil (by decide) b
    have hup : jsToUpper (str "refs/pull/" ++ b) = str "REFS/PULL/" ++ jsToUpper b := by
      rw [jsToUpper_append]; rfl
    have hheads : jsStartsWith (str "REFS/PULL/" ++ jsToUpper b) (str "REFS/HEADS/") = false :=
      jsStartsWith_eq_false _ _
        (not_prefix_of_incomparable (List.prefix_append _ _) (by decide) (by decide))
    simp only [testReference, hne, hc, false_and, and_false, if_false, if_neg hne, if_neg hc,
      hup, hheads, Bool.false_eq_true, jsStartsWith_append_self, if_true]
  · intro t ht hc
    subst ht
    have hne : str "refs/tags/" ++ t ≠ [] := List.append_ne_nil_of_left_ne_nil (by decide) t
    have hup : jsToUpper (str "refs/tags/" ++ t) = str "REFS/TAGS/" ++ jsToUpper t := by
      rw [jsToUpper_append]; rfl
    have hheads : jsStartsWith (str "REFS/TAGS/" ++ jsToUpper t) (str "REFS/HEADS/") = false :=
      jsStartsWith_eq_false _ _
        (not_prefix_of_incomparable (List.prefix_append _ _) (by decide) (by decide))
    have hpull : jsStartsWith (str "REFS/TAGS/" ++ jsToUpper t) (str "REFS/PULL/") = false :=
      jsStartsWith_eq_false _ _
        (not_prefix_of_incomparable (List.prefix_append _ _) (by decide) (by decide))
    simp only [testReference, hne, hc, false_and, and_false, if_false, if_neg hne, if_neg hc,
      hup, hheads, hpull, Bool.false_eq_true, jsStartsWith_append_self, if_true, jsSlice]
    rw [List.drop_left]
  · intro hc hne hh hp ht
    simp [testReference, hc, hne, hh, hp, ht]

/-- Witness for C6 at concrete inputs: for the existing branch `main` at the
expected commit the check returns true; at a different expected commit it
returns false. -/
theorem C6_testReference_amended_witness :
    testReference sampleGitEnv (str "refs/heads/main") (str "1234") = .ok true
    ∧ testReference sampleGitEnv (str "refs/heads/main") (str "abcd") = .ok false := by
  constructor
  · have h := (C6_testReference_amended sampleGitEnv (str "refs/heads/main")
      (str "1234")).2.2.2.1 (str "main") rfl (by decide)
    rw [h]; rfl
  · have h := (C6_testReference_amended sampleGitEnv (str "refs/heads/main")
      (str "abcd")).2.2.2.1 (str "main") rfl (by decide)
    rw [h]; rfl

/-- `tagsRefSpec` constant from `git-directory-helper.ts`. -/
def tagsReferenceSpec : Str := str "+refs/tags/*:refs/tags/*"

/-- `getReferenceSpecForAllHistory(ref, commit)` from `git-directory-helper.ts`. -/
def getReferenceSpecForAllHistory (reference commit : Str) : List Str :=
  let result := [str "+refs/heads/*:refs/remotes/origin/*", tagsReferenceSpec]
  if reference ≠ [] ∧ jsStartsWith (jsToUpper reference) (str "REFS/PULL/") = true then
    let branch := jsSlice (str "refs/pull/").length reference
    result ++ [str "+" ++ (if commit ≠ [] then commit else reference)
      ++ str ":refs/remotes/pull/" ++ branch]
  else
    result

/-- Counterexample to claim C7 as stated: for the PR ref
`refs/pull/42/merge` with commit `deadbeef`, the extra refspec fetches the
commit, not the literal PR ref — the literal-ref refspec
`+refs/pull/42/merge:refs/remotes/pull/42/merge` is not in the returned
list. -/
theorem C7_getReferenceSpecForAllHistory_counterexample :
    getReferenceSpecForAllHistory (str "refs/pull/42/merge") (str "deadbeef") =
      [str "+refs/heads/*:refs/remotes/origin/*", str "+refs/tags/*:refs/tags/*",
        str "+deadbeef:refs/remotes/pull/42/merge"]
    ∧ str "+refs/pull/42/merge:refs/remotes/pull/42/merge" ∉
        getReferenceSpecForAllHistory (str "refs/pull/42/merge") (str "deadbeef") := by
  exact ⟨rfl, by decide⟩

/-- Claim C7 (amended): the returned list always contains the all-heads and
all-tags refspecs; for a PR ref `refs/pull/<n>/...` it has exactly one extra
refspec whose destination is `refs/remotes/pull/<n>/...` and whose source is
the commit when one was given, otherwise the literal PR ref; for every other
ref exactly the two glob entries are returned. -/
theorem C7_getReferenceSpecForAllHistory_amended (reference commit : Str) :
    (str "+refs/heads/*:refs/remotes/origin/*" ∈ getReferenceSpecForAllHistory reference commit
      ∧ tagsReferenceSpec ∈ getReferenceSpecForAllHistory reference commit)
    ∧ (∀ b, reference = str "refs/pull/" ++ b → commit = [] →
      getReferenceSpecForAllHistory reference commit =
        [str "+refs/heads/*:refs/remotes/origin/*", tagsReferenceSpec,
          str "+refs/pull/" ++ b ++ str ":refs/remotes/pull/" ++ b])
    ∧ (∀ b, reference = str "refs/pull/" ++ b → commit ≠ [] →
      getReferenceSpecForAllHistory reference commit =
        [str "+refs/heads/*:refs/remotes/origin/*", tagsReferenceSpec,
          str "+" ++ commit ++ str ":refs/remotes/pull/" ++ b])
    ∧ (jsStartsWith (jsToUpper reference) (str "REFS/PULL/") = false →
      getReferenceSpecForAllHistory reference commit =
        [str "+refs/heads/*:refs/remotes/origin/*", tagsReferenceSpec]) := by
  refine ⟨?_, ?_, ?_, ?_⟩
  · unfold getReferenceSpecForAllHistory
    by_cases h : reference ≠ [] ∧ jsStartsWith (jsToUpper reference) (str "REFS/PULL/") = true <;>
      simp [h]
  · intro b hb hc
    subst hb
    have hne : str "refs/pull/" ++ b ≠ [] := List.append_ne_nil_of_left_ne_nil (by decide) b
    have hup : jsToUpper (str "refs/pull/" ++ b) = str "REFS/PULL/" ++ jsToUpper b := by
      rw [jsToUpper_append]; rfl
    simp only [getReferenceSpecForAllHistory, hup, jsStartsWith_append_self, hne, hc,
      ne_eq, not_true_eq_false, if_false, not_false_iff, and_self, if_true, jsSlice]
    rw [List.drop_left]
    simp [str, List.append_assoc]
  · intro b hb hc
    subst hb
    have hne : str "refs/pull/" ++ b ≠ [] := List.append_ne_nil_of_left_ne_nil (by decide) b
    have hup : jsToUpper (str "refs/pull/" ++ b) = str "REFS/PULL/" ++ jsToUpper b := by
      rw [jsToUpper_append]; rfl
    simp only [getReferenceSpecForAllHistory, hup, jsStartsWith_append_self, hne, hc,
      ne_eq, not_false_iff, and_self, if_true, jsSlice]
    rw [List.drop_left]
    rfl
  · intro h
    unfold getReferenceSpecForAllHistory
    simp [h]

/-- Witness for C7 at concrete inputs: a PR ref with no commit fetches the
literal PR ref; a plain branch ref yields exactly the two glob refspecs. -/
theorem C7_getReferenceSpecForAllHistory_amended_witness :
    getReferenceSpecForAllHistory (str "refs/pull/7/head") [] =
      [str "+refs/heads/*:refs/remotes/origin/*", str "+refs/tags/*:refs/tags/*",
        str "+refs/pull/7/head:refs/remotes/pull/7/head"]
    ∧ getReferenceSpecForAllHistory (str "refs/heads/main") (str "c0ffee") =
      [str "+refs/heads/*:refs/remotes/origin/*", str "+refs/tags/*:refs/tags/*"] := by
  constructor
  · have h := (C7_getReferenceSpecForAllHistory_amended (str "refs/pull/7/head") []).2.1
      (str "7/head") rfl rfl
    rw [h]; rfl
  · exact (C7_getReferenceSpecForAllHistory_amended (str "refs/heads/main")
      (str "c0ffee")).2.2.2 (by decide)

/-!
## getDefaultBranch over the remote metadata API

`getDefaultBranch` from the archive-fallback module wraps a single metadata
request (`octokit.rest.repos.get`) in `retryHelper.execute`.  The outcome of
each request is an oracle input: `.ok db` is a response carrying the
`default_branch` field, `.error (.status n)` an error object with an HTTP
`status` property, `.error .noStatusField` any thrown value without a
`status` property.  The non-empty assertion on `default_branch` throws an
assertion error, which the catch block re-throws (it has no `status`
property), modelled by `.error .assertionFailed`.
-/

inductive GdbError where
  | status : Nat → GdbError
  | noStatusField : GdbError
  | assertionFailed : GdbError
deriving DecidableEq, Repr

/-- Prefix an unqualified branch name with `refs/heads/` (tail of
`getDefaultBranch`). -/
def qualifyHeadsRef (r : Str) : Str :=
  if jsStartsWith r (str "refs/") then r else str "refs/heads/" ++ r

/-- One attempt of `getDefaultBranch`: the try/catch around the metadata
request plus the `.wiki` 404 recovery, followed by `refs/heads/`
qualification. -/
def getDefaultBranchAttempt (repo : Str) (response : Except GdbError Str) :
    Except GdbError Str :=
  let tried : Except GdbError Str :=
    match response with
    | .ok db => if db = [] then .error .assertionFailed else .ok db
    | .error e => .error e
  match tried with
  | .ok r => .ok (qualifyHeadsRef r)
  | .error e =>
    -- Handle .wiki repo
    if e = .status 404 ∧ jsEndsWith (jsToUpper repo) (str ".WIKI") = true then
      .ok (qualifyHeadsRef (str "master"))
    -- Otherwise error
    else
      .error e

/-- `getDefaultBranch(authToken, owner, repo)`: the attempt wrapped in the
default-policy retry helper; `responses i` is the outcome of the i-th
metadata request. -/
def getDefaultBranch (repo : Str) (responses : Nat → Except GdbError Str) :
    RetryTrace GdbError Str :=
  retryExecute defaultMaxAttempts (fun i => getDefaultBranchAttempt repo (responses i))

/-- Claim C9: a metadata request failing with HTTP 404 for a repository name
ending in `.wiki` (case-insensitively) yields the default branch `master`
qualified as `refs/heads/master` instead of an error; an error that is not a
404-on-`.wiki` — including a 404 for any other repository name — propagates
to the caller. -/
theorem C9_getDefaultBranch_wiki404 (repo : Str) (responses : Nat → Except GdbError Str) :
    (responses 0 = .error (.status 404) →
      jsEndsWith (jsToUpper repo) (str ".WIKI") = true →
      getDefaultBranch repo responses = ⟨.ok (str "refs/heads/master"), 1, 0⟩)
    ∧ (∀ e : GdbError, (∀ i, responses i = .error e) →
      ¬ (e = .status 404 ∧ jsEndsWith (jsToUpper repo) (str ".WIKI") = true) →
      getDefaultBranch repo responses = ⟨.error e, 3, 2⟩) := by
  constructor
  · intro h0 hwiki
    have ha : getDefaultBranchAttempt repo (responses 0) = .ok (str "refs/heads/master") := by
      rw [h0]
      simp [getDefaultBranchAttempt, hwiki]
      rfl
    rw [getDefaultBranch, retryExecute]
    rw [executeGo_step_lt _ _ _ _ _ (by decide)]
    simp only [ha]
  · intro e hall hno
    have ha : ∀ i, getDefaultBranchAttempt repo (responses i) = .error e := by
      intro i
      rw [hall i]
      simp only [getDefaultBranchAttempt]
      rw [if_neg hno]
    rw [getDefaultBranch, retryExecute]
    rw [executeGo_step_lt _ _ _ _ _ (by decide), ha 0]
    rw [executeGo_step_lt _ _ _ _ _ (by decide), ha 1]
    rw [executeGo_step_ge _ _ _ _ _ (by decide), ha 2]

/-- Witness for C9 at concrete inputs: a 404 on `Project.wiki` yields
`refs/heads/master`; the same 404 on `project` propagates after the retries
are exhausted. -/
theorem C9_getDefaultBranch_wiki404_witness :
    getDefaultBranch (str "Project.wiki") (fun _ => .error (.status 404)) =
      ⟨.ok (str "refs/heads/master"), 1, 0⟩
    ∧ getDefaultBranch (str "project") (fun _ => .error (.status 404)) =
      ⟨.error (.status 404), 3, 2⟩ := by
  constructor
  · exact (C9_getDefaultBranch_wiki404 (str "Project.wiki")
      (fun _ => .error (.status 404))).1 rfl (by decide)
  · exact (C9_getDefaultBranch_wiki404 (str "project")
      (fun _ => .error (.status 404))).2 (.status 404) (fun _ => rfl) (by decide)

/-!
## tryGetFetchUrl and prepareExistingDirectory

`tryGetFetchUrl` runs `git config --local --get remote.origin.url` with
`allowAllExitCodes`, so the invocation never raises; its outcome is the
captured `GitOutput`.  `prepareExistingDirectory` decides between in-place
reuse and full removal of the directory contents.  The in-place block is the
`try` body; every git step that can exit non-zero without
`allowAllExitCodes` is an `Except`-valued oracle, and any error is caught by
the surrounding catch, which downgrades the decision to removal.  The
result records the removal decision together with the list of paths handed
to `rmRF`, in order.
-/

structure GitOutput where
  exitCode : Nat
  stdout : Str

/-- `GitCommandManager.tryGetFetchUrl` applied to the captured output of the
config query (JavaScript `includes('\n')` on the trimmed stdout is
single-character containment). -/
def tryGetFetchUrl (output : GitOutput) : Str :=
  if output.exitCode ≠ 0 then
    []
  else
    let stdout := jsTrim output.stdout
    if stdout.contains '\n' then [] else stdout

structure PrepEnv where
  isDetached : Except Unit Bool
  checkoutDetach : Except Unit Unit
  branchListLocal : Except Unit (List Str)
  branchDeleteLocal : Str → Except Unit Unit
  branchListRemote : Except Unit (List Str)
  branchDeleteRemote : Str → Except Unit Unit
  submoduleStatus : Except Unit Bool
  tryClean : Bool
  tryReset : Bool

/-- The `try` block of `prepareExistingDirectory`: detach HEAD, delete all
local branches, delete remote-tracking branches whose name prefix/suffix
conflicts with the requested ref, check submodule health, and — when `clean`
was requested — run clean then reset; returns the `remove` flag accumulated
by those steps, or an error if any git invocation raised. -/
def innerPrepare (env : PrepEnv) (clean : Bool) (reference : Str) : Except Unit Bool := do
  -- Checkout detached HEAD
  let detached ← env.isDetached
  if !detached then
    env.checkoutDetach
  -- Remove all refs/heads/*
  let branches ← env.branchListLocal
  for branch in branches do
    env.branchDeleteLocal branch
  -- Remove any conflicting refs/remotes/origin/*
  if reference ≠ [] then
    let reference := if jsStartsWith reference (str "refs/") then reference
      else str "refs/heads/" ++ reference
    if jsStartsWith reference (str "refs/heads/") then
      let upperName1 := jsSlice (str "REFS/HEADS/").length (jsToUpper reference)
      let remoteBranches ← env.branchListRemote
      for branch in remoteBranches do
        let upperName2 := jsToUpper (jsSlice (str "origin/").length branch)
        if jsStartsWith upperName1 (upperName2 ++ str "/")
            || jsStartsWith upperName2 (upperName1 ++ str "/") then
          env.branchDeleteRemote branch
  -- Check for submodules and flag removal if they are broken
  let submodulesOk ← env.submoduleStatus
  let mut remove := false
  if !submodulesOk then
    remove := true
  -- Clean
  if clean then
    if !env.tryClean then
      remove := true
    else if !env.tryReset then
      remove := true
  return remove

structure PrepareResult where
  remove : Bool
  deleted : List Str

/-- The stale lock files deleted (best effort) before attempting reuse. -/
def lockPaths (repositoryPath : Str) : List Str :=
  [pathJoin (pathJoin repositoryPath (str ".git")) (str "index.lock"),
    pathJoin (pathJoin repositoryPath (str ".git")) (str "shallow.lock")]

/-- `prepareExistingDirectory(git, repositoryPath, repositoryUrl, clean, ref)`:
removal is chosen when no command manager is usable, when the `.git`
directory is missing or the fetch URL differs, or when the in-place reuse
block flags or raises; when removal is chosen each entry of the directory is
deleted individually (`rmRF(path.join(repositoryPath, file))`), never the
directory itself. -/
def prepareExistingDirectory (gitPresent dotGitExists : Bool)
    (fetchUrl repositoryUrl : Str) (env : PrepEnv) (clean : Bool) (reference : Str)
    (repositoryPath : Str) (entries : List Str) : PrepareResult :=
  -- Check whether using git or REST API
  if gitPresent = false then
    ⟨true, entries.map (pathJoin repositoryPath)⟩
  -- Fetch URL does not match
  else if dotGitExists = false ∨ fetchUrl ≠ repositoryUrl then
    ⟨true, entries.map (pathJoin repositoryPath)⟩
  else
    let remove := match innerPrepare env clean reference with
      | .ok r => r
      | .error _ => true
    ⟨remove, lockPaths repositoryPath
      ++ (if remove then entries.map (pathJoin repositoryPath) else [])⟩

theorem pathJoin_length (a b : Str) : (pathJoin a b).length = a.length + 1 + b.length := by
  simp [pathJoin]; omega

theorem pathJoin_ne (a b : Str) : pathJoin a b ≠ a := by
  intro h
  have := congrArg List.length h
  rw [pathJoin_length] at this
  omega

theorem pathJoin_pathJoin_ne (a b c : Str) : pathJoin (pathJoin a b) c ≠ a := by
  intro h
  have := congrArg List.length h
  rw [pathJoin_length, pathJoin_length] at this
  omega

theorem mem_lockPaths_ne (repositoryPath p : Str) (hp : p ∈ lockPaths repositoryPath) :
    p ≠ repositoryPath := by
  simp only [lockPaths, List.mem_cons, List.mem_singleton, List.not_mem_nil, or_false] at hp
  rcases hp with rfl | rfl
  · exact pathJoin_pathJoin_ne _ _ _
  · exact pathJoin_pathJoin_ne _ _ _

theorem mem_map_pathJoin_ne (repositoryPath p : Str) (entries : List Str)
    (hp : p ∈ entries.map (pathJoin repositoryPath)) : p ≠ repositoryPath := by
  obtain ⟨e, _, rfl⟩ := List.mem_map.mp hp
  exact pathJoin_ne _ _

/-- Claim C8: whenever full removal is chosen — because no command manager is
usable, the `.git` metadata is missing, the fetch URL differs, or the
in-place reuse block raised (every such failure downgrades the decision to
removal instead of propagating) — each entry inside `repositoryPath` is
deleted individually and no deleted path is the `repositoryPath` directory
itself. -/
theorem C8_prepareExistingDirectory_frame (gitPresent dotGitExists : Bool)
    (fetchUrl repositoryUrl : Str) (env : PrepEnv) (clean : Bool) (reference : Str)
    (repositoryPath : Str) (entries : List Str)
    (_hpath : repositoryPath ≠ []) (_hurl : repositoryUrl ≠ []) :
    (gitPresent = false →
      (prepareExistingDirectory gitPresent dotGitExists fetchUrl repositoryUrl env clean
        reference repositoryPath entries).remove = true)
    ∧ (dotGitExists = false →
      (prepareExistingDirectory gitPresent dotGitExists fetchUrl repositoryUrl env clean
        reference repositoryPath entries).remove = true)
    ∧ (fetchUrl ≠ repositoryUrl →
      (prepareExistingDirectory gitPresent dotGitExists fetchUrl repositoryUrl env clean
        reference repositoryPath entries).remove = true)
    ∧ (innerPrepare env clean reference = .error () →
      (prepareExistingDirectory gitPresent dotGitExists fetchUrl repositoryUrl env clean
        reference repositoryPath entries).remove = true)
    ∧ ((prepareExistingDirectory gitPresent dotGitExists fetchUrl repositoryUrl env clean
        reference repositoryPath entries).remove = true →
      ∀ e ∈ entries, pathJoin repositoryPath e ∈
        (prepareExistingDirectory gitPresent dotGitExists fetchUrl repositoryUrl env clean
          reference repositoryPath entries).deleted)
    ∧ (∀ p ∈ (prepareExistingDirectory gitPresent dotGitExists fetchUrl repositoryUrl env
        clean reference repositoryPath entries).deleted, p ≠ repositoryPath) := by
  refine ⟨?_, ?_, ?_, ?_, ?_, ?_⟩
  · intro h
    simp [prepareExistingDirectory, h]
  · intro h
    unfold prepareExistingDirectory
    split_ifs with h1 h2
    · rfl
    · rfl
    · exact absurd (Or.inl h) h2
  · intro h
    unfold prepareExistingDirectory
    split_ifs with h1 h2
    · rfl
    · rfl
    · exact absurd (Or.inr h) h2
  · intro h
    unfold prepareExistingDirectory
    split_ifs with h1 h2
    · rfl
    · rfl
    · simp only [h]
  · intro hrem e he
    unfold prepareExistingDirectory at *
    split_ifs at hrem ⊢ with h1 h2
    · exact List.mem_map_of_mem (pathJoin repositoryPath) he
    · exact List.mem_map_of_mem (pathJoin repositoryPath) he
    · rcases hm : (match innerPrepare env clean reference with
        | .ok r => r
        | .error _ => true) with _ | _
      · rw [hm] at hrem
        exact absurd hrem (by simp)
      · rw [hm]
        simp only [if_pos rfl]
        exact List.mem_append_right _ (List.mem_map_of_mem (pathJoin repositoryPath) he)
  · intro p hp
    unfold prepareExistingDirectory at hp
    split_ifs at hp with h1 h2
    · exact mem_map_pathJoin_ne repositoryPath p entries hp
    · exact mem_map_pathJoin_ne repositoryPath p entries hp
    · rcases List.mem_append.mp hp with h | h
      · exact mem_lockPaths_ne repositoryPath p h
      · rcases hm : (match innerPrepare env clean reference with
          | .ok r => r
          | .error _ => true) with _ | _
        · rw [hm] at h
          simp at h
        · rw [hm] at h
          simp only [if_pos rfl] at h
          exact mem_map_pathJoin_ne repositoryPath p entries h

/-- A reuse oracle for which every in-place step succeeds cleanly. -/
def cleanPrepEnv : PrepEnv where
  isDetached := .ok true
  checkoutDetach := .ok ()
  branchListLocal := .ok []
  branchDeleteLocal := fun _ => .ok ()
  branchListRemote := .ok []
  branchDeleteRemote := fun _ => .ok ()
  submoduleStatus := .ok true
  tryClean := true
  tryReset := true

/-- A reuse oracle whose detach step raises, as after a corrupted checkout. -/
def failingPrepEnv : PrepEnv :=
  { cleanPrepEnv with isDetached := .error () }

/-- Witness for C8 at concrete inputs: with a usable command manager whose
detach step raises, removal is chosen, both directory entries are deleted
individually, and no deleted path equals the repository path. -/
theorem C8_prepareExistingDirectory_frame_witness :
    (prepareExistingDirectory true true (str "u") (str "u") failingPrepEnv false
      (str "main") (str "/w") [str "a", str ".git"]).remove = true
    ∧ pathJoin (str "/w") (str "a") ∈
      (prepareExistingDirectory true true (str "u") (str "u") failingPrepEnv false
        (str "main") (str "/w") [str "a", str ".git"]).deleted
    ∧ ∀ p ∈ (prepareExistingDirectory true true (str "u") (str "u") failingPrepEnv false
        (str "main") (str "/w") [str "a", str ".git"]).deleted, p ≠ str "/w" := by
  have h := C8_prepareExistingDirectory_frame true true (str "u") (str "u") failingPrepEnv
    false (str "main") (str "/w") [str "a", str ".git"] (by decide) (by decide)
  have hrem := h.2.2.2.1 rfl
  exact ⟨hrem, h.2.2.2.2.1 hrem (str "a") (by decide), h.2.2.2.2.2⟩

/-- Claim C10: `tryGetFetchUrl` returns the empty string when the config
query exits non-zero (no `remote.origin.url` key) and when the trimmed
output spans more than one line (multiple values); since the empty string
differs from any non-empty expected URL, `prepareExistingDirectory` then
chooses full removal. -/
theorem C10_tryGetFetchUrl_empty (output : GitOutput) :
    (output.exitCode ≠ 0 → tryGetFetchUrl output = [])
    ∧ ((jsTrim output.stdout).contains '\n' = true → tryGetFetchUrl output = [])
    ∧ (∀ repositoryUrl : Str, repositoryUrl ≠ [] →
      output.exitCode ≠ 0 ∨ (jsTrim output.stdout).contains '\n' = true →
      ∀ (dotGitExists : Bool) (env : PrepEnv) (clean : Bool)
        (reference repositoryPath : Str) (entries : List Str),
        (prepareExistingDirectory true dotGitExists (tryGetFetchUrl output) repositoryUrl
          env clean reference repositoryPath entries).remove = true) := by
  have hempty : output.exitCode ≠ 0 ∨ (jsTrim output.stdout).contains '\n' = true →
      tryGetFetchUrl output = [] := by
    intro h
    unfold tryGetFetchUrl
    dsimp only
    split_ifs with h1 h2
    · rfl
    · rfl
    · rcases h with h | h
      · exact absurd h h1
      · exact absurd h h2
  refine ⟨fun h => hempty (Or.inl h), fun h => hempty (Or.inr h), ?_⟩
  intro repositoryUrl hurl h dotGitExists env clean reference repositoryPath entries
  rw [hempty h]
  unfold prepareExistingDirectory
  rw [if_neg (by decide : ¬ ((true : Bool) = false))]
  rw [if_pos (Or.inr (fun he => hurl he.symm))]

/-- Witness for C10 at concrete inputs: a non-zero exit and a two-line
output both yield the empty string, and a workspace with such a fetch URL is
flagged for removal against the expected URL `https://x/o/r`. -/
theorem C10_tryGetFetchUrl_empty_witness :
    tryGetFetchUrl ⟨1, str "whatever"⟩ = []
    ∧ tryGetFetchUrl ⟨0, str "https://a\nhttps://b"⟩ = []
    ∧ (prepareExistingDirectory true true (tryGetFetchUrl ⟨0, str "https://a\nhttps://b"⟩)
        (str "https://x/o/r") cleanPrepEnv true (str "main") (str "/w")
        [str "x"]).remove = true := by
  refine ⟨(C10_tryGetFetchUrl_empty ⟨1, str "whatever"⟩).1 (by decide),
    (C10_tryGetFetchUrl_empty ⟨0, str "https://a\nhttps://b"⟩).2.1 (by decide),
    (C10_tryGetFetchUrl_empty ⟨0, str "https://a\nhttps://b"⟩).2.2 (str "https://x/o/r")
      (by decide) (Or.inr (by decide)) true cleanPrepEnv true (str "main") (str "/w")
      [str "x"]⟩

/-!
## Occurrence search: specification of indexOf / lastIndexOf / replace

These lemmas characterise `indexOfSub`, `lastIndexOfSub` and
`jsReplaceFirstSub`, which model the JavaScript string operations used by
`GitAuthHelper.replaceTokenPlaceholder`.
-/

theorem isPrefixOf_true_iff {l₁ l₂ : Str} : l₁.isPrefixOf l₂ = true ↔ l₁ <+: l₂ := by
  simp [List.isPrefixOf_iff_prefix]

theorem occPositions_sorted (s pat : Str) : (occPositions s pat).Pairwise (· < ·) :=
  List.Pairwise.filter _ (List.pairwise_lt_range _)

theorem mem_occPositions {s pat : Str} {i : Nat} :
    i ∈ occPositions s pat ↔ i < s.length + 1 ∧ pat.isPrefixOf (s.drop i) = true := by
  simp [occPositions, List.mem_filter, List.mem_range]

theorem mem_of_head?_some {α : Type} {l : List α} {a : α} (h : l.head? = some a) : a ∈ l := by
  cases l with
  | nil => cases h
  | cons b t =>
    injection h with h
    rw [← h]
    exact List.mem_cons_self b t

theorem head?_some_of_mem {α : Type} {l : List α} {a : α} (h : a ∈ l) :
    ∃ b, l.head? = some b := by
  cases l with
  | nil => cases h
  | cons b t => exact ⟨b, rfl⟩

theorem mem_of_getLast?_some {α : Type} {l : List α} {a : α} (h : l.getLast? = some a) :
    a ∈ l := by
  induction l with
  | nil => cases h
  | cons b t ih =>
    cases t with
    | nil =>
      injection h with h
      rw [← h]
      exact List.mem_cons_self b []
    | cons c t2 =>
      rw [List.getLast?_cons_cons] at h
      exact List.mem_cons_of_mem b (ih h)

theorem getLast?_some_of_ne_nil {α : Type} {l : List α} (h : l ≠ []) :
    ∃ b, l.getLast? = some b := by
  induction l with
  | nil => exact absurd rfl h
  | cons b t ih =>
    cases t with
    | nil => exact ⟨b, rfl⟩
    | cons c t2 =>
      obtain ⟨g, hg⟩ := ih (by simp)
      exact ⟨g, by rw [List.getLast?_cons_cons]; exact hg⟩

theorem getLast?_some_of_mem {α : Type} {l : List α} {a : α} (h : a ∈ l) :
    ∃ b, l.getLast? = some b :=
  getLast?_some_of_ne_nil (List.ne_nil_of_mem h)

theorem head?_le_of_sorted {l : List Nat} (hs : l.Pairwise (· < ·)) {j x : Nat}
    (hh : l.head? = some j) (hx : x ∈ l) : j ≤ x := by
  cases l with
  | nil => cases hx
  | cons a t =>
    injection hh with hh
    subst hh
    rcases List.mem_cons.mp hx with rfl | hx
    · exact Nat.le_refl x
    · exact Nat.le_of_lt ((List.pairwise_cons.mp hs).1 x hx)

theorem le_getLast?_of_sorted {l : List Nat} (hs : l.Pairwise (· < ·)) {g x : Nat}
    (hh : l.getLast? = some g) (hx : x ∈ l) : x ≤ g := by
  induction l with
  | nil => cases hx
  | cons a t ih =>
    cases t with
    | nil =>
      injection hh with hh
      subst hh
      rcases List.mem_cons.mp hx with rfl | hx
      · exact Nat.le_refl x
      · cases hx
    | cons c t2 =>
      rw [List.getLast?_cons_cons] at hh
      rcases List.mem_cons.mp hx with rfl | hx
      · have hg : g ∈ c :: t2 := mem_of_getLast?_some hh
        exact Nat.le_of_lt ((List.pairwise_cons.mp hs).1 g hg)
      · exact ih (List.pairwise_cons.mp hs).2 hh hx

/-- An occurrence of `pat` at position `i` decomposes `s` around it. -/
theorem occ_decomposition {s pat : Str} {i : Nat} (h : pat.isPrefixOf (s.drop i) = true) :
    s = s.take i ++ pat ++ s.drop (i + pat.length) := by
  obtain ⟨t, ht⟩ := isPrefixOf_true_iff.mp h
  have hdrop : s.drop (i + pat.length) = t := by
    rw [← List.drop_drop, ← ht, List.drop_left]
  rw [hdrop, List.append_assoc, ht, List.take_append_drop]

theorem indexOfSub_spec {s pat : Str} {i : Nat} (h : indexOfSub s pat = some i) :
    s = s.take i ++ pat ++ s.drop (i + pat.length) :=
  occ_decomposition (mem_occPositions.mp (mem_of_head?_some h)).2

/-- A decomposition of `s` around `pat` witnesses an occurrence position. -/
theorem occAt_of_decomposition (p pat r : Str) :
    p.length ∈ occPositions (p ++ pat ++ r) pat := by
  rw [mem_occPositions]
  constructor
  · simp
    omega
  · rw [List.append_assoc, List.drop_left]
    exact isPrefixOf_true_iff.mpr (List.prefix_append pat r)

theorem indexOfSub_some_of_infix {s pat : Str} (h : pat <:+: s) :
    ∃ i, indexOfSub s pat = some i := by
  obtain ⟨p, r, hs⟩ := h
  have hmem : p.length ∈ occPositions s pat := by
    rw [← hs] at *
    exact occAt_of_decomposition p pat r
  exact head?_some_of_mem hmem

theorem indexOfSub_eq_none_of_not_infix {s pat : Str} (h : ¬ pat <:+: s) :
    indexOfSub s pat = none := by
  rcases hc : indexOfSub s pat with _ | i
  · rfl
  · exfalso
    have hmem := mem_of_head?_some hc
    have hocc := (mem_occPositions.mp hmem).2
    have hinf : pat <:+: s :=
      (isPrefixOf_true_iff.mp hocc).isInfix.trans (List.drop_suffix i s).isInfix
    exact h hinf

/-- Two non-overlapping occurrences force `indexOf` and `lastIndexOf` to
differ. -/
theorem indexOf_ne_lastIndexOf_of_two {s pat p m r : Str} (hpat : pat ≠ [])
    (hs : s = p ++ pat ++ m ++ pat ++ r) :
    ∃ i g, indexOfSub s pat = some i ∧ lastIndexOfSub s pat = some g ∧ i ≠ g := by
  have h1 : p.length ∈ occPositions s pat := by
    have : s = p ++ pat ++ (m ++ pat ++ r) := by rw [hs]; simp [List.append_assoc]
    rw [this]
    exact occAt_of_decomposition p pat (m ++ pat ++ r)
  have h2 : (p ++ pat ++ m).length ∈ occPositions s pat := by
    have : s = (p ++ pat ++ m) ++ pat ++ r := by rw [hs]
    rw [this]
    exact occAt_of_decomposition (p ++ pat ++ m) pat r
  obtain ⟨i, hi⟩ := head?_some_of_mem h1
  obtain ⟨g, hg⟩ := getLast?_some_of_mem h2
  refine ⟨i, g, hi, hg, ?_⟩
  have hle1 : i ≤ p.length := head?_le_of_sorted (occPositions_sorted s pat) hi h1
  have hle2 : (p ++ pat ++ m).length ≤ g :=
    le_getLast?_of_sorted (occPositions_sorted s pat) hg h2
  have hlen : 0 < pat.length := List.length_pos.mpr hpat
  simp only [List.length_append] at hle2
  omega

theorem indexOfSub_eq_zero_of_isPrefix {s pat : Str} (h : pat <+: s) :
    indexOfSub s pat = some 0 := by
  unfold indexOfSub occPositions
  rw [List.range_succ_eq_map, List.filter_cons]
  have h0 : pat.isPrefixOf (s.drop 0) = true := by
    rw [List.drop_zero]
    exact isPrefixOf_true_iff.mpr h
  rw [if_pos (by rw [h0])]
  rfl

theorem jsReplaceFirstSub_of_isPrefix {pat repl : Str} :
    jsReplaceFirstSub pat pat repl = repl := by
  unfold jsReplaceFirstSub
  rw [indexOfSub_eq_zero_of_isPrefix (List.prefix_refl pat)]
  simp [List.drop_length]

/-!
## Token auth configuration (GitAuthHelper.configureToken)

The basic credential is `Buffer.from('x-access-token:' + token,
'utf8').toString('base64')`: UTF-8 bytes of the credential pair, base64
encoded.  `configureToken` first runs
`git config [--local|--global] <key> 'AUTHORIZATION: basic ***'` (the fixed
placeholder), then patches the config file directly, replacing the single
placeholder occurrence with the real header value
(`replaceTokenPlaceholder`).
-/

/-- UTF-8 encoding of one code point. -/
def utf8Char (n : Nat) : List Nat :=
  if n < 128 then [n]
  else if n < 2048 then [192 + n / 64, 128 + n % 64]
  else if n < 65536 then [224 + n / 4096, 128 + (n / 64) % 64, 128 + n % 64]
  else [240 + n / 262144, 128 + (n / 4096) % 64, 128 + (n / 64) % 64, 128 + n % 64]

/-- UTF-8 encoding of a string (`Buffer.from(s, 'utf8')`). -/
def utf8Encode : Str → List Nat
  | [] => []
  | c :: rest => utf8Char c.toNat ++ utf8Encode rest

def base64Alphabet : Str :=
  str "ABCDEFGHIJKLMNOPQRSTUVWXYZabcdefghijklmnopqrstuvwxyz0123456789+/"

def b64Char (n : Nat) : Char := base64Alphabet.getD n 'A'

/-- RFC 4648 base64 of a byte sequence (`buffer.toString('base64')`). -/
def base64Encode : List Nat → Str
  | [] => []
  | [b1] => [b64Char (b1 / 4), b64Char (b1 % 4 * 16), '=', '=']
  | [b1, b2] => [b64Char (b1 / 4), b64Char (b1 % 4 * 16 + b2 / 16), b64Char (b2 % 16 * 4), '=']
  | b1 :: b2 :: b3 :: rest =>
    b64Char (b1 / 4) :: b64Char (b1 % 4 * 16 + b2 / 16) :: b64Char (b2 % 16 * 4 + b3 / 64) ::
      b64Char (b3 % 64) :: base64Encode rest

/-- The base64 `x-access-token:<token>` credential computed in the
`GitAuthHelper` constructor. -/
def basicCredential (authToken : Str) : Str :=
  base64Encode (utf8Encode (str "x-access-token:" ++ authToken))

/-- `this.tokenPlaceholderConfigValue`. -/
def tokenPlaceholderConfigValue : Str := str "AUTHORIZATION: basic ***"

/-- `this.tokenConfigValue`. -/
def tokenConfigValue (authToken : Str) : Str :=
  str "AUTHORIZATION: basic " ++ basicCredential authToken

/-- `this.tokenConfigKey` — `http.<origin>/.extraheader`. -/
def tokenConfigKey (serverOrigin : Str) : Str :=
  str "http." ++ serverOrigin ++ str "/.extraheader"

theorem utf8Encode_append (a b : Str) :
    utf8Encode (a ++ b) = utf8Encode a ++ utf8Encode b := by
  induction a with
  | nil => rfl
  | cons c rest ih => simp [utf8Encode, ih]

/-- The credential's base64 form always starts with the 20 characters
encoding the fixed 15-byte prefix `x-access-token:`. -/
theorem basicCredential_eq (authToken : Str) :
    basicCredential authToken =
      str "eC1hY2Nlc3MtdG9rZW46" ++ base64Encode (utf8Encode authToken) := by
  rw [basicCredential, utf8Encode_append]
  rfl

theorem basicCredential_head (authToken : Str) :
    (basicCredential authToken).head? = some 'e' := by
  rw [basicCredential_eq]
  rfl

/-- Errors of `replaceTokenPlaceholder`. -/
inductive PlaceholderError where
  | notExactlyOne : PlaceholderError
deriving DecidableEq, Repr

/-- `GitAuthHelper.replaceTokenPlaceholder` applied to the config file
content: locate the placeholder, throw unless it occurs exactly once
(`indexOf` < 0 or ≠ `lastIndexOf`), then replace the first occurrence with
the real token header and write the file back. -/
def replaceTokenPlaceholder (authToken content : Str) : Except PlaceholderError Str :=
  match indexOfSub content tokenPlaceholderConfigValue with
  | none => .error .notExactlyOne
  | some placeholderIndex =>
    if lastIndexOfSub content tokenPlaceholderConfigValue ≠ some placeholderIndex then
      .error .notExactlyOne
    else
      .ok (jsReplaceFirstSub content tokenPlaceholderConfigValue (tokenConfigValue authToken))

/-- The arguments of the single git process spawned by `configureToken`. -/
def configureTokenArgs (serverOrigin : Str) (globalConfig : Bool) : List Str :=
  [str "config", if globalConfig then str "--global" else str "--local",
    tokenConfigKey serverOrigin, tokenPlaceholderConfigValue]

structure ConfigureTokenModel where
  spawnedArgs : List (List Str)
  patchFile : Str → Except PlaceholderError Str

/-- `GitAuthHelper.configureToken`: one `git config` invocation writing the
placeholder value, followed by the direct file patch.  `patchFile` receives
the config-file content as it stands after the `git config` step. -/
def configureToken (serverOrigin authToken : Str) (globalConfig : Bool) : ConfigureTokenModel :=
  ⟨[configureTokenArgs serverOrigin globalConfig],
    fun content => replaceTokenPlaceholder authToken content⟩

/-- Claim C2: during `configureToken` the only spawned git process carries
the fixed placeholder `AUTHORIZATION: basic ***` as the config value — the
real base64 credential and the real header value appear in no argument of
any spawned process; the real credential is written only by the file patch,
which replaces the single placeholder occurrence in place; and the patch
throws when the placeholder is absent or occurs more than once. -/
theorem C2_configureToken_placeholder (serverOrigin authToken : Str) (globalConfig : Bool) :
    ((configureToken serverOrigin authToken globalConfig).spawnedArgs =
      [[str "config", if globalConfig then str "--global" else str "--local",
        tokenConfigKey serverOrigin, tokenPlaceholderConfigValue]])
    ∧ (∀ args ∈ (configureToken serverOrigin authToken globalConfig).spawnedArgs,
      basicCredential authToken ∉ args ∧ tokenConfigValue authToken ∉ args)
    ∧ (∀ content out,
      (configureToken serverOrigin authToken globalConfig).patchFile content = .ok out →
      ∃ pre suf, content = pre ++ tokenPlaceholderConfigValue ++ suf
        ∧ out = pre ++ tokenConfigValue authToken ++ suf)
    ∧ (∀ content, ¬ tokenPlaceholderConfigValue <:+: content →
      (configureToken serverOrigin authToken globalConfig).patchFile content =
        .error .notExactlyOne)
    ∧ (∀ content p m r,
      content = p ++ tokenPlaceholderConfigValue ++ m ++ tokenPlaceholderConfigValue ++ r →
      (configureToken serverOrigin authToken globalConfig).patchFile content =
        .error .notExactlyOne) := by
  have hneq : ∀ (x y : Str) (c d : Char), x = y → x.head? = some c → y.head? = some d →
      c ≠ d → False := by
    intro x y c d heq hx hy hcd
    rw [heq, hy] at hx
    injection hx with hx
    exact hcd hx.symm
  have hsome : ∀ (content : Str) (i : Nat) (authToken : Str),
      indexOfSub content tokenPlaceholderConfigValue = some i →
      replaceTokenPlaceholder authToken content =
        if lastIndexOfSub content tokenPlaceholderConfigValue ≠ some i then
          .error .notExactlyOne
        else
          .ok (jsReplaceFirstSub content tokenPlaceholderConfigValue
            (tokenConfigValue authToken)) := by
    intro content i authToken h
    unfold replaceTokenPlaceholder
    rw [h]
  refine ⟨rfl, ?_, ?_, ?_, ?_⟩
  · intro args hargs
    have hargs2 : args = configureTokenArgs serverOrigin globalConfig :=
      List.mem_singleton.mp hargs
    subst hargs2
    have hcred : (basicCredential authToken).head? = some 'e' := basicCredential_head authToken
    have hval : (tokenConfigValue authToken).head? = some 'A' := rfl
    have hif : (if globalConfig then str "--global" else str "--local").head? = some '-' := by
      cases globalConfig <;> rfl
    constructor
    · intro hmem
      unfold configureTokenArgs at hmem
      simp only [List.mem_cons, List.not_mem_nil, or_false] at hmem
      rcases hmem with h | h | h | h
      · exact hneq _ _ 'e' 'c' h hcred rfl (by decide)
      · exact hneq _ _ 'e' '-' h hcred hif (by decide)
      · exact hneq _ _ 'e' 'h' h hcred rfl (by decide)
      · exact hneq _ _ 'e' 'A' h hcred rfl (by decide)
    · intro hmem
      unfold configureTokenArgs at hmem
      simp only [List.mem_cons, List.not_mem_nil, or_false] at hmem
      rcases hmem with h | h | h | h
      · exact hneq _ _ 'A' 'c' h hval rfl (by decide)
      · exact hneq _ _ 'A' '-' h hval hif (by decide)
      · exact hneq _ _ 'A' 'h' h hval rfl (by decide)
      · -- tokenConfigValue = placeholder would force the credential to be `***`
        have hsplit : str "AUTHORIZATION: basic " ++ basicCredential authToken =
            str "AUTHORIZATION: basic " ++ str "***" := h
        have hstar : basicCredential authToken = str "***" :=
          List.append_cancel_left hsplit
        have hcred := basicCredential_head authToken
        rw [hstar] at hcred
        exact absurd hcred (by decide)
  · intro content out hout
    have hout2 : replaceTokenPlaceholder authToken content = .ok out := hout
    rcases hidx : indexOfSub content tokenPlaceholderConfigValue with _ | i
    · rw [replaceTokenPlaceholder, hidx] at hout2
      cases hout2
    · rw [hsome content i authToken hidx] at hout2
      split_ifs at hout2 with hlast
      injection hout2 with hout2
      refine ⟨content.take i, content.drop (i + tokenPlaceholderConfigValue.length),
        indexOfSub_spec hidx, ?_⟩
      rw [← hout2]
      unfold jsReplaceFirstSub
      rw [hidx]
  · intro content hnot
    show replaceTokenPlaceholder authToken content = .error .notExactlyOne
    rw [replaceTokenPlaceholder, indexOfSub_eq_none_of_not_infix hnot]
  · intro content p m r hcontent
    show replaceTokenPlaceholder authToken content = .error .notExactlyOne
    obtain ⟨i, g, hi, hg, hne⟩ :=
      @indexOf_ne_lastIndexOf_of_two content tokenPlaceholderConfigValue p m r
        (by decide) hcontent
    rw [hsome content i authToken hi,
      if_pos (by rw [hg]; intro hcon; injection hcon with hcon; exact hne hcon.symm)]

/-- Witness for C2 at concrete inputs: patching a config file holding the
placeholder once replaces exactly that occurrence; a file without the
placeholder and a file with two occurrences both make the patch throw. -/
theorem C2_configureToken_placeholder_witness :
    (∃ pre suf,
      str "[http]\n\textraheader = " ++ tokenPlaceholderConfigValue ++ str "\n" =
        pre ++ tokenPlaceholderConfigValue ++ suf
      ∧ (configureToken (str "https://github.com") (str "tok") false).patchFile
          (str "[http]\n\textraheader = " ++ tokenPlaceholderConfigValue ++ str "\n") =
        .ok (pre ++ tokenConfigValue (str "tok") ++ suf))
    ∧ (configureToken (str "https://github.com") (str "tok") false).patchFile
        (str "[core]\n") = .error .notExactlyOne
    ∧ (configureToken (str "https://github.com") (str "tok") false).patchFile
        (tokenPlaceholderConfigValue ++ str "--" ++ tokenPlaceholderConfigValue) =
      .error .notExactlyOne := by
  have h := C2_configureToken_placeholder (str "https://github.com") (str "tok") false
  refine ⟨?_, ?_, ?_⟩
  · obtain ⟨pre, suf, h1, h2⟩ := h.2.2.1
      (str "[http]\n\textraheader = " ++ tokenPlaceholderConfigValue ++ str "\n")
      (jsReplaceFirstSub
        (str "[http]\n\textraheader = " ++ tokenPlaceholderConfigValue ++ str "\n")
        tokenPlaceholderConfigValue (tokenConfigValue (str "tok"))) rfl
    refine ⟨pre, suf, h1, ?_⟩
    rw [← h2]
    rfl
  · exact h.2.2.2.1 (str "[core]\n") (by decide)
  · exact h.2.2.2.2 (tokenPlaceholderConfigValue ++ str "--" ++ tokenPlaceholderConfigValue)
      [] (str "--") [] (by simp)

/-!
## Git config state: configureAuth / removeAuth round trip

The local git config file is modelled as an ordered list of key/value
entries.  `git config <key> <value>` (no `--add`) appends a missing key,
replaces a unique existing entry, and exits non-zero (raising) when the key
is multi-valued; `git config --unset-all <key>` drops every entry of the
key; the `replaceTokenPlaceholder` file patch acts on the entry whose value
contains the placeholder text, replacing its first occurrence, and raises
unless exactly one entry contains it.  The submodule-foreach passes of
`removeAuth` do not touch the parent repository's config and are not part
of this state.
-/

abbrev ConfigState := List (Str × Str)

/-- `git config <key> <value>` on the modelled config state. -/
def configSet (s : ConfigState) (k v : Str) : Except Unit ConfigState :=
  match s.countP (fun e => e.1 == k) with
  | 0 => .ok (s ++ [(k, v)])
  | 1 => .ok (s.map (fun e => if e.1 == k then (k, v) else e))
  | _ => .error ()

/-- `git config --unset-all <key>` (via `tryConfigUnset`). -/
def configUnsetAll (s : ConfigState) (k : Str) : ConfigState :=
  s.filter (fun e => !(e.1 == k))

/-- `replaceTokenPlaceholder` acting on the modelled config state. -/
def patchPlaceholderState (real : Str) (s : ConfigState) : Except Unit ConfigState :=
  if s.countP (fun e => containsSub e.2 tokenPlaceholderConfigValue) = 1 then
    .ok (s.map (fun e => if containsSub e.2 tokenPlaceholderConfigValue then
      (e.1, jsReplaceFirstSub e.2 tokenPlaceholderConfigValue real) else e))
  else
    .error ()

structure AuthSettings where
  hasSshKey : Bool
  persistCredentials : Bool

def sshCommandKey : Str := str "core.sshCommand"

/-- `GitAuthHelper.removeAuth` on the config state: `removeSsh` unsets
`core.sshCommand`, then `removeToken` unsets the extra-header key (file
deletions do not touch the config). -/
def removeAuthState (serverOrigin : Str) (s : ConfigState) : ConfigState :=
  configUnsetAll (configUnsetAll s sshCommandKey) (tokenConfigKey serverOrigin)

/-- `configureSsh` on the config state: `core.sshCommand` is written only
when an SSH key is present and credentials persist. -/
def configureSshState (st : AuthSettings) (sshCmd : Str) (s : ConfigState) :
    Except Unit ConfigState :=
  if st.hasSshKey && st.persistCredentials then configSet s sshCommandKey sshCmd else .ok s

/-- `configureToken` on the config state: write the placeholder, then patch
it to the real header value. -/
def configureTokenState (serverOrigin authToken : Str) (s : ConfigState) :
    Except Unit ConfigState := do
  let s1 ← configSet s (tokenConfigKey serverOrigin) tokenPlaceholderConfigValue
  patchPlaceholderState (tokenConfigValue authToken) s1

/-- `GitAuthHelper.configureAuth`: remove possible previous values, then
configure SSH and token auth. -/
def configureAuthState (serverOrigin authToken : Str) (st : AuthSettings) (sshCmd : Str)
    (s : ConfigState) : Except Unit ConfigState := do
  let s1 := removeAuthState serverOrigin s
  let s2 ← configureSshState st sshCmd s1
  configureTokenState serverOrigin authToken s2

section ConfigStateLemmas

theorem countP_key_zero {s : ConfigState} {k : Str} (h : ∀ e ∈ s, e.1 ≠ k) :
    s.countP (fun e => e.1 == k) = 0 := by
  rw [List.countP_eq_zero]
  intro e he
  simp [h e he]

theorem configUnsetAll_id {s : ConfigState} {k : Str} (h : ∀ e ∈ s, e.1 ≠ k) :
    configUnsetAll s k = s := by
  rw [configUnsetAll, List.filter_eq_self]
  intro e he
  simp [h e he]

theorem configUnsetAll_append (a b : ConfigState) (k : Str) :
    configUnsetAll (a ++ b) k = configUnsetAll a k ++ configUnsetAll b k := by
  simp [configUnsetAll]

theorem containsSub_self (s : Str) : containsSub s s = true := by
  rw [containsSub, indexOfSub_eq_zero_of_isPrefix (List.prefix_refl s)]
  rfl

theorem containsSub_eq_false_iff {s pat : Str} : containsSub s pat = false ↔ ¬ pat <:+: s := by
  constructor
  · intro h hinf
    obtain ⟨i, hi⟩ := indexOfSub_some_of_infix hinf
    rw [containsSub, hi] at h
    cases h
  · intro h
    rw [containsSub, indexOfSub_eq_none_of_not_infix h]
    rfl

theorem tokenConfigKey_ne_sshCommandKey (serverOrigin : Str) :
    tokenConfigKey serverOrigin ≠ sshCommandKey := by
  intro h
  have hh : some 'h' = some 'c' := congrArg List.head? h
  cases hh

theorem except_ok_bind {α β γ : Type} (a : α) (f : α → Except γ β) :
    (Except.ok a >>= f) = f a := rfl

theorem configSet_absent {s : ConfigState} {k : Str} (v : Str) (h : ∀ e ∈ s, e.1 ≠ k) :
    configSet s k v = .ok (s ++ [(k, v)]) := by
  rw [configSet, countP_key_zero h]

theorem patchPlaceholderState_append_token {s : ConfigState} (k real : Str)
    (h : ∀ e ∈ s, containsSub e.2 tokenPlaceholderConfigValue = false) :
    patchPlaceholderState real (s ++ [(k, tokenPlaceholderConfigValue)]) =
      .ok (s ++ [(k, real)]) := by
  have hcount : (s ++ [(k, tokenPlaceholderConfigValue)]).countP
      (fun e => containsSub e.2 tokenPlaceholderConfigValue) = 1 := by
    rw [List.countP_append]
    have h0 : s.countP (fun e => containsSub e.2 tokenPlaceholderConfigValue) = 0 := by
      rw [List.countP_eq_zero]
      intro e he
      simp [h e he]
    rw [h0]
    simp [List.countP_cons, containsSub_self]
  rw [patchPlaceholderState, if_pos hcount, List.map_append]
  have hmap : s.map (fun e => if containsSub e.2 tokenPlaceholderConfigValue then
      (e.1, jsReplaceFirstSub e.2 tokenPlaceholderConfigValue real) else e) = s := by
    calc s.map (fun e => if containsSub e.2 tokenPlaceholderConfigValue then
          (e.1, jsReplaceFirstSub e.2 tokenPlaceholderConfigValue real) else e)
        = s.map id := by
          apply List.map_congr_left
          intro e he
          simp [h e he]
      _ = s := List.map_id s
  rw [hmap]
  simp [containsSub_self, jsReplaceFirstSub_of_isPrefix]

end ConfigStateLemmas

/-- Counterexample to claim C4 as stated: a starting config that already
carries the extra-header key is not restored — `configureAuth` begins with
`removeAuth`, which unsets the pre-existing entry, and the final `removeAuth`
leaves the config empty rather than byte-identical to the starting state. -/
theorem C4_configRoundTrip_counterexample :
    (configureAuthState (str "https://github.com") (str "tok") ⟨false, false⟩ (str "ssh")
        [(tokenConfigKey (str "https://github.com"), str "X")]).map
      (removeAuthState (str "https://github.com")) = .ok []
    ∧ ([] : ConfigState) ≠ [(tokenConfigKey (str "https://github.com"), str "X")] := by
  constructor
  · rfl
  · intro h
    cases h

/-- Claim C4 (amended): for every starting config state that contains
neither the extra-header key nor `core.sshCommand` and none of whose values
contain the placeholder text (and an SSH command free of it),
`configureAuth` succeeds and a subsequent `removeAuth` restores the config
state exactly: every entry added — the extra-header entry and, when an SSH
key is present with persisted credentials, `core.sshCommand` — is removed
again and nothing else is changed. -/
theorem C4_configRoundTrip_amended (serverOrigin authToken sshCmd : Str) (st : AuthSettings)
    (s0 : ConfigState)
    (hk1 : ∀ e ∈ s0, e.1 ≠ tokenConfigKey serverOrigin)
    (hk2 : ∀ e ∈ s0, e.1 ≠ sshCommandKey)
    (hv : ∀ e ∈ s0, containsSub e.2 tokenPlaceholderConfigValue = false)
    (hcmd : containsSub sshCmd tokenPlaceholderConfigValue = false) :
    ∃ s1, configureAuthState serverOrigin authToken st sshCmd s0 = .ok s1
      ∧ removeAuthState serverOrigin s1 = s0 := by
  have hrm0 : removeAuthState serverOrigin s0 = s0 := by
    rw [removeAuthState, configUnsetAll_id hk2, configUnsetAll_id hk1]
  have htkssh := tokenConfigKey_ne_sshCommandKey serverOrigin
  have huns1 : configUnsetAll [(sshCommandKey, sshCmd)] sshCommandKey = [] := by
    simp [configUnsetAll]
  have huns2 : configUnsetAll
      [(tokenConfigKey serverOrigin, tokenConfigValue authToken)] sshCommandKey =
      [(tokenConfigKey serverOrigin, tokenConfigValue authToken)] := by
    simp [configUnsetAll, htkssh]
  have huns3 : configUnsetAll
      [(tokenConfigKey serverOrigin, tokenConfigValue authToken)]
      (tokenConfigKey serverOrigin) = [] := by
    simp [configUnsetAll]
  by_cases hssh : (st.hasSshKey && st.persistCredentials) = true
  case pos =>
    -- core.sshCommand is written, then the token entry
    have hset1 : configSet s0 sshCommandKey sshCmd = .ok (s0 ++ [(sshCommandKey, sshCmd)]) :=
      configSet_absent sshCmd hk2
    have hk1' : ∀ e ∈ s0 ++ [(sshCommandKey, sshCmd)], e.1 ≠ tokenConfigKey serverOrigin := by
      intro e he
      rcases List.mem_append.mp he with h | h
      · exact hk1 e h
      · rcases List.mem_singleton.mp h with rfl
        exact fun hh => htkssh hh.symm
    have hset2 : configSet (s0 ++ [(sshCommandKey, sshCmd)]) (tokenConfigKey serverOrigin)
        tokenPlaceholderConfigValue =
        .ok ((s0 ++ [(sshCommandKey, sshCmd)]) ++
          [(tokenConfigKey serverOrigin, tokenPlaceholderConfigValue)]) :=
      configSet_absent tokenPlaceholderConfigValue hk1'
    have hv' : ∀ e ∈ s0 ++ [(sshCommandKey, sshCmd)],
        containsSub e.2 tokenPlaceholderConfigValue = false := by
      intro e he
      rcases List.mem_append.mp he with h | h
      · exact hv e h
      · rcases List.mem_singleton.mp h with rfl
        exact hcmd
    have hpatch := @patchPlaceholderState_append_token (s0 ++ [(sshCommandKey, sshCmd)])
      (tokenConfigKey serverOrigin) (tokenConfigValue authToken) hv'
    refine ⟨(s0 ++ [(sshCommandKey, sshCmd)]) ++
      [(tokenConfigKey serverOrigin, tokenConfigValue authToken)], ?_, ?_⟩
    · rw [configureAuthState, hrm0]
      simp only [configureSshState, hssh, if_pos, hset1]
      simp only [configureTokenState, except_ok_bind, hset2, hpatch]
    · rw [removeAuthState,
        configUnsetAll_append (s0 ++ [(sshCommandKey, sshCmd)])
          [(tokenConfigKey serverOrigin, tokenConfigValue authToken)] sshCommandKey,
        configUnsetAll_append s0 [(sshCommandKey, sshCmd)] sshCommandKey,
        configUnsetAll_id hk2, huns1, List.append_nil, huns2,
        configUnsetAll_append s0
          [(tokenConfigKey serverOrigin, tokenConfigValue authToken)]
          (tokenConfigKey serverOrigin),
        configUnsetAll_id hk1, huns3, List.append_nil]
  case neg =>
    have hset2 : configSet s0 (tokenConfigKey serverOrigin) tokenPlaceholderConfigValue =
        .ok (s0 ++ [(tokenConfigKey serverOrigin, tokenPlaceholderConfigValue)]) :=
      configSet_absent tokenPlaceholderConfigValue hk1
    have hpatch := @patchPlaceholderState_append_token s0
      (tokenConfigKey serverOrigin) (tokenConfigValue authToken) hv
    refine ⟨s0 ++ [(tokenConfigKey serverOrigin, tokenConfigValue authToken)], ?_, ?_⟩
    · rw [configureAuthState, hrm0]
      simp only [configureSshState, hssh, Bool.false_eq_true, if_false]
      simp only [configureTokenState, except_ok_bind, hset2, hpatch]
    · rw [removeAuthState,
        configUnsetAll_append s0
          [(tokenConfigKey serverOrigin, tokenConfigValue authToken)] sshCommandKey,
        configUnsetAll_id hk2, huns2,
        configUnsetAll_append s0
          [(tokenConfigKey serverOrigin, tokenConfigValue authToken)]
          (tokenConfigKey serverOrigin),
        configUnsetAll_id hk1, huns3, List.append_nil]

/-- Witness for C4 at concrete inputs: starting from a config holding only
`user.name = alice`, configuring SSH-plus-token auth and then removing it
restores exactly that state. -/
theorem C4_configRoundTrip_amended_witness :
    ∃ s1, configureAuthState (str "https://github.com") (str "tok") ⟨true, true⟩
        (str "ssh -i key") [(str "user.name", str "alice")] = .ok s1
      ∧ removeAuthState (str "https://github.com") s1 = [(str "user.name", str "alice")] :=
  C4_configRoundTrip_amended (str "https://github.com") (str "tok") (str "ssh -i key")
    ⟨true, true⟩ [(str "user.name", str "alice")]
    (by intro e he; simp only [List.mem_singleton] at he; subst he; decide)
    (by intro e he; simp only [List.mem_singleton] at he; subst he; decide)
    (by intro e he; simp only [List.mem_singleton] at he; subst he; decide)
    (by decide)

/-!
## Teardown: removeAuth / removeGlobalConfig

`removeAuth` deletes the SSH key and known-hosts files inside try/catch
blocks that only log, and removes the two config keys via `removeGitConfig`;
`configExists` and `tryConfigUnset` run with `allowAllExitCodes` and cannot
raise (an unset failure is only a logged warning), but the
`git submodule foreach` invocation at the end of `removeGitConfig` runs
without `allowAllExitCodes`, so its failure propagates.
`removeGlobalConfig` awaits `fsHelper.rmRF(temporaryHomePath)` with no
surrounding try/catch.
-/

/-- A try/catch that logs the error and continues. -/
def tryCatchLog (x : Except Unit Unit) : Except Unit Unit :=
  match x with
  | .ok _ => .ok ()
  | .error _ => .ok ()

structure TeardownEnv where
  rmSshKeyFile : Except Unit Unit
  rmKnownHostsFile : Except Unit Unit
  sshConfigExists : Bool
  sshUnsetOk : Bool
  tokenConfigExists : Bool
  tokenUnsetOk : Bool
  submoduleForeachSsh : Except Unit Str
  submoduleForeachToken : Except Unit Str

/-- `GitAuthHelper.removeGitConfig(key)`: a failed unset is only a logged
warning; the submodule-foreach invocation may raise and is not caught. -/
def removeGitConfigRun (keyExists unsetOk : Bool) (foreach : Except Unit Str) :
    Except Unit Unit := do
  let _warnOnly := keyExists && !unsetOk
  let _ ← foreach
  pure ()

/-- `GitAuthHelper.removeSsh`: best-effort deletion of the key and
known-hosts files (failures caught and logged), then removal of
`core.sshCommand`. -/
def removeSshRun (env : TeardownEnv) (sshKeyPath sshKnownHostsPath : Str) :
    Except Unit Unit := do
  if sshKeyPath ≠ [] then
    tryCatchLog env.rmSshKeyFile
  if sshKnownHostsPath ≠ [] then
    tryCatchLog env.rmKnownHostsFile
  removeGitConfigRun env.sshConfigExists env.sshUnsetOk env.submoduleForeachSsh

/-- `GitAuthHelper.removeAuth`: `removeSsh` then `removeToken`. -/
def removeAuthRun (env : TeardownEnv) (sshKeyPath sshKnownHostsPath : Str) :
    Except Unit Unit := do
  removeSshRun env sshKeyPath sshKnownHostsPath
  removeGitConfigRun env.tokenConfigExists env.tokenUnsetOk env.submoduleForeachToken

/-- `GitAuthHelper.removeGlobalConfig`: a no-op when no temporary HOME was
configured; otherwise unsets the HOME override and deletes the temporary
HOME directory, with the `rmRF` awaited outside any try/catch. -/
def removeGlobalConfigRun (temporaryHomePath : Str) (rmTempHome : Except Unit Unit) :
    Except Unit Unit :=
  if temporaryHomePath.length > 0 then rmTempHome else .ok ()

/-- Counterexample to claim C5 as stated: a failure to delete the temporary
HOME directory propagates out of `removeGlobalConfig` (the `rmRF` is not
wrapped), and a failing `git submodule foreach` propagates out of
`removeAuth` — neither call is unconditionally non-throwing. -/
theorem C5_teardown_counterexample :
    removeGlobalConfigRun (str "/tmp/home-abc") (.error ()) = .error ()
    ∧ removeAuthRun ⟨.ok (), .ok (), true, true, true, true, .error (), .ok []⟩ [] [] =
      .error () :=
  ⟨rfl, rfl⟩

/-- Claim C5 (amended): `removeAuth` completes normally for every prior
state in which the two submodule-foreach invocations succeed — SSH key and
known-hosts deletion failures and config-unset failures are logged, never
raised; `removeGlobalConfig` is a safe no-op when nothing was configured and
completes normally whenever the temporary-HOME deletion succeeds; and
teardown is idempotent on the config state. -/
theorem C5_teardown_amended (env : TeardownEnv) (sshKeyPath sshKnownHostsPath : Str) :
    (∀ o1 o2, env.submoduleForeachSsh = .ok o1 → env.submoduleForeachToken = .ok o2 →
      removeAuthRun env sshKeyPath sshKnownHostsPath = .ok ())
    ∧ (∀ r, removeGlobalConfigRun [] r = .ok ())
    ∧ (∀ p, removeGlobalConfigRun p (.ok ()) = .ok ())
    ∧ (∀ (serverOrigin : Str) (s : ConfigState),
      removeAuthState serverOrigin (removeAuthState serverOrigin s) =
        removeAuthState serverOrigin s) := by
  have htc : ∀ x, tryCatchLog x = .ok () := by
    intro x
    cases x <;> rfl
  refine ⟨?_, ?_, ?_, ?_⟩
  · intro o1 o2 h1 h2
    simp [removeAuthRun, removeSshRun, removeGitConfigRun, htc, h1, h2]
    split_ifs <;> rfl
  · intro r
    rfl
  · intro p
    rw [removeGlobalConfigRun]
    split_ifs <;> rfl
  · intro serverOrigin s
    have idem : ∀ (x : ConfigState) (k : Str),
        configUnsetAll (configUnsetAll x k) k = configUnsetAll x k := by
      intro x k
      apply List.filter_eq_self.mpr
      intro a ha
      exact (List.mem_filter.mp ha).2
    have comm : ∀ (x : ConfigState) (k1 k2 : Str),
        configUnsetAll (configUnsetAll x k1) k2 = configUnsetAll (configUnsetAll x k2) k1 := by
      intro x k1 k2
      simp only [configUnsetAll, List.filter_filter]
      congr 1
      funext e
      exact Bool.and_comm _ _
    rw [removeAuthState, removeAuthState,
      comm (configUnsetAll (configUnsetAll s sshCommandKey) (tokenConfigKey serverOrigin))
        sshCommandKey (tokenConfigKey serverOrigin)]
    rw [show configUnsetAll (configUnsetAll (configUnsetAll s sshCommandKey)
        (tokenConfigKey serverOrigin)) (tokenConfigKey serverOrigin) =
        configUnsetAll (configUnsetAll s sshCommandKey) (tokenConfigKey serverOrigin) from
      idem _ _]
    rw [comm (configUnsetAll s sshCommandKey) (tokenConfigKey serverOrigin) sshCommandKey,
      idem, comm]

/-- Witness for C5 at concrete inputs: with both submodule-foreach
invocations succeeding, `removeAuth` completes normally even though both
file deletions and both unsets fail; `removeGlobalConfig` is a no-op without
a temporary HOME; and tearing down a one-entry config twice equals tearing
it down once. -/
theorem C5_teardown_amended_witness :
    removeAuthRun ⟨.error (), .error (), true, false, true, false, .ok [], .ok []⟩
      (str "/tmp/key") (str "/tmp/kh") = .ok ()
    ∧ removeGlobalConfigRun [] (.error ()) = .ok ()
    ∧ removeAuthState (str "https://github.com")
        (removeAuthState (str "https://github.com") [(sshCommandKey, str "ssh")]) =
      removeAuthState (str "https://github.com") [(sshCommandKey, str "ssh")] := by
  have h := C5_teardown_amended
    ⟨.error (), .error (), true, false, true, false, .ok [], .ok []⟩
    (str "/tmp/key") (str "/tmp/kh")
  exact ⟨h.1 [] [] rfl rfl, h.2.1 (.error ()),
    h.2.2.2 (str "https://github.com") [(sshCommandKey, str "ssh")]⟩

end HostingWorker
